import Mathlib

/-!
Formal model of the master-outline frontend tree-mutation logic:
the nested section tree, the local reorder walk, the optimistic move
handler, the rename guard, the delete strategy choice, and the API
error surface (src/frontend/src/types.ts, src/frontend/src/api.ts,
src/frontend/src/components/SectionRow.tsx).
-/

/-- Node shape of the sections tree (types.ts, `SectionNode`). -/
structure SectionNode where
  id : String
  parent_id : Option String
  section_key : String
  name : String
  is_leaf : Bool
  order : Int
  children : List SectionNode

instance : Inhabited SectionNode := ⟨⟨"", none, "", "", false, 0, []⟩⟩

/-- Drop position (types.ts, `DropPosition`). -/
inductive DropPosition where
  | before
  | after
deriving DecidableEq

/-- JS `Array.prototype.findIndex`, with `none` standing for `-1`. -/
def findIndex (p : SectionNode → Bool) : List SectionNode → Option Nat
  | [] => none
  | n :: rest => if p n then some 0 else (findIndex p rest).map (· + 1)

/-- JS `splice(k, 0, x)`: insert `x` at index `k`; an index past the end
appends at the end, as `splice` clamps it. -/
def spliceInsert (x : SectionNode) : Nat → List SectionNode → List SectionNode
  | 0, l => x :: l
  | _ + 1, [] => [x]
  | k + 1, a :: rest => a :: spliceInsert x k rest

/-- `normalizeLocalOrders` (types.ts line 182-184) is a map-with-index
setting `order := idx + 1`; generalized over the starting index so the
recursion carries the index through. -/
def normalizeFrom (k : Nat) : List SectionNode → List SectionNode
  | [] => []
  | n :: rest => { n with order := (k : Int) + 1 } :: normalizeFrom (k + 1) rest

/-- `normalizeLocalOrders(list)` = `list.map((n, idx) => (..n, order: idx + 1))`. -/
def normalizeLocalOrders (l : List SectionNode) : List SectionNode := normalizeFrom 0 l

/-- The index at which `walk` reinserts the moved node
(types.ts lines 158-163). -/
def insertAtIndex (i j : Nat) (position : DropPosition) : Nat :=
  if i < j then (if position = DropPosition.before then j - 1 else j)
  else (if position = DropPosition.before then j else j + 1)

/-- A node's child list is smaller than the node itself, for the
termination of the tree walks. -/
theorem sizeOf_children_lt (n : SectionNode) : sizeOf n.children < sizeOf n := by
  obtain ⟨a, b, c, d, e, f, g⟩ := n
  simp only [SectionNode.mk.sizeOf_spec]
  omega

mutual
/-- The inner `walk` of `reorderTreeLocally` (types.ts lines 152-177):
if the current sibling list contains both ids, splice the moved node out,
reinsert it relative to the target, and renumber; otherwise descend into
each node's children. -/
def walkGroup (sectionId targetId : String) (position : DropPosition)
    (l : List SectionNode) : List SectionNode × Bool :=
  match findIndex (fun n => n.id == sectionId) l,
        findIndex (fun n => n.id == targetId) l with
  | some i, some j =>
      (normalizeLocalOrders
        (spliceInsert ((l[i]?).getD default) (insertAtIndex i j position)
          (l.eraseIdx i)), true)
  | _, _ => walkEach sectionId targetId position l
termination_by 2 * sizeOf l + 1

/-- The `list.map` branch of `walk` (types.ts lines 168-176): descend into
the children of each node, keeping a node untouched when its subtree did
not change. -/
def walkEach (sectionId targetId : String) (position : DropPosition) :
    List SectionNode → List SectionNode × Bool
  | [] => ([], false)
  | n :: rest =>
      let r := walkEach sectionId targetId position rest
      if n.children.isEmpty then (n :: r.1, r.2)
      else
        let rc := walkGroup sectionId targetId position n.children
        if rc.2 then ({ n with children := rc.1 } :: r.1, true)
        else (n :: r.1, r.2)
termination_by l => 2 * sizeOf l
decreasing_by
all_goals simp_wf
all_goals ((try have h' := sizeOf_children_lt ‹SectionNode›); omega)
end

/-- `reorderTreeLocally` (types.ts lines 146-180). -/
def reorderTreeLocally (nodes : List SectionNode) (sectionId targetId : String)
    (position : DropPosition) : List SectionNode :=
  (walkGroup sectionId targetId position nodes).1

/-- The entries written into the `Map` by `getNodeMeta`'s preorder walk
(types.ts lines 134-144), in insertion order: the node itself, then its
children, then the rest of the list. -/
def nodeMetaList : List SectionNode → List (String × Option String × Int)
  | [] => []
  | n :: rest =>
      (n.id, n.parent_id, n.order) :: (nodeMetaList n.children ++ nodeMetaList rest)
termination_by l => sizeOf l
decreasing_by
all_goals simp_wf
all_goals ((try have h' := sizeOf_children_lt ‹SectionNode›); omega)

/-- `getNodeMeta(nodes).get(id)`: a JS `Map` keeps the last value set for a
key, so the lookup scans the insertion order backwards. -/
def getNodeMeta (nodes : List SectionNode) (id : String) :
    Option (Option String × Int) :=
  ((nodeMetaList nodes).reverse.find? (fun e => e.1 == id)).map (fun e => e.2)

/-- Result of one run of `moveSectionByAnchor` (types.ts lines 186-217):
the tree state afterwards, the error message set (if any), and the move
request issued to the server (if any). -/
structure MoveOutcome where
  tree : List SectionNode
  error : Option String
  request : Option (String × String × DropPosition)

/-- `moveSectionByAnchor` (types.ts lines 186-217), with the two awaited
network effects supplied as values: `moveResp` is the outcome of
`moveSectionRequest` (`Except.error` when it throws) and `fetchResp` the
outcome of the silent `loadSections` re-fetch. The handler captures
`previousTree` before the optimistic `reorderTreeLocally` update and
restores it when the move request throws; on success the tree is replaced
by the re-fetched one (or left at the optimistic value when the re-fetch
itself fails, which `loadSections` swallows into an error message). -/
def moveSectionByAnchor (tree : List SectionNode) (sectionId targetId : String)
    (moveResp : Except String Unit)
    (fetchResp : Except String (List SectionNode)) : MoveOutcome :=
  if sectionId == targetId then { tree := tree, error := none, request := none }
  else
    match getNodeMeta tree sectionId, getNodeMeta tree targetId with
    | some dragged, some target =>
        if dragged.1 ≠ target.1 then
          { tree := tree, error := some "Cross-parent moves are not allowed.",
            request := none }
        else
          let position :=
            if dragged.2 < target.2 then DropPosition.after else DropPosition.before
          let optimistic := reorderTreeLocally tree sectionId targetId position
          match moveResp with
          | Except.error msg =>
              { tree := tree, error := some msg,
                request := some (sectionId, targetId, position) }
          | Except.ok _ =>
              match fetchResp with
              | Except.ok newTree =>
                  { tree := newTree, error := none,
                    request := some (sectionId, targetId, position) }
              | Except.error msg =>
                  { tree := optimistic, error := some msg,
                    request := some (sectionId, targetId, position) }
    | _, _ => { tree := tree, error := none, request := none }

/-- Projection of a node with its `order` field blanked, used to state
that an operation only repositions and renumbers nodes and changes
nothing else about them (id, parent, key, name, leaf flag, subtree). -/
def eraseOrder (n : SectionNode) : SectionNode := { n with order := 0 }

/-- Spec-side description of the move edit ("removes `sectionId` from its
current slot"): drop the first node carrying the moved id. -/
def removeFirstById (sectionId : String) : List SectionNode → List SectionNode
  | [] => []
  | n :: rest =>
      if n.id == sectionId then rest else n :: removeFirstById sectionId rest

/-- Spec-side description of the move edit ("reinserts it immediately
before/after `targetSectionId`"): insert `x` right before or right after
the first node carrying the target id (appending if the target is
absent, a case excluded by the claims' hypotheses). -/
def insertBesideById (targetId : String) (position : DropPosition)
    (x : SectionNode) : List SectionNode → List SectionNode
  | [] => [x]
  | n :: rest =>
      if n.id == targetId then
        match position with
        | DropPosition.before => x :: n :: rest
        | DropPosition.after => n :: x :: rest
      else n :: insertBesideById targetId position x rest

/-- Spec-side reorder of one sibling group, following the spec's words:
remove the moved node from its current slot, reinsert it immediately
before/after the target. -/
def specReorderGroup (l : List SectionNode) (sectionId targetId : String)
    (position : DropPosition) : List SectionNode :=
  match l.find? (fun n => n.id == sectionId) with
  | some moved => insertBesideById targetId position moved (removeFirstById sectionId l)
  | none => l

/-- Does this one sibling list contain both ids? (the guard of `walk`'s
in-place branch). -/
def groupHasBoth (sectionId targetId : String) (l : List SectionNode) : Bool :=
  (findIndex (fun n => n.id == sectionId) l).isSome &&
  (findIndex (fun n => n.id == targetId) l).isSome

mutual
/-- Does some sibling list of the forest (the root list or the child list
of any node in it) contain both ids? -/
def someGroupHasBoth (sectionId targetId : String) (l : List SectionNode) : Bool :=
  groupHasBoth sectionId targetId l || someGroupHasBothEach sectionId targetId l
termination_by 2 * sizeOf l + 1

/-- Recurse `someGroupHasBoth` into the children of each node. -/
def someGroupHasBothEach (sectionId targetId : String) :
    List SectionNode → Bool
  | [] => false
  | n :: rest =>
      someGroupHasBoth sectionId targetId n.children ||
      someGroupHasBothEach sectionId targetId rest
termination_by l => 2 * sizeOf l
decreasing_by
all_goals simp_wf
all_goals ((try have h' := sizeOf_children_lt ‹SectionNode›); omega)
end

/-- Result of one run of `handleSave` (SectionRow.tsx lines 65-74):
the rename request issued (carrying the name sent), whether the row is
still in edit mode, and the draft name afterwards. -/
structure SaveOutcome where
  request : Option String
  editing : Bool
  draft : String

/-- `handleSave` (SectionRow.tsx lines 65-74): trim the draft; an empty
or unchanged trimmed draft closes the editor and resets the draft with no
request; otherwise the trimmed name is sent and the editor closes. -/
def handleSave (draftName nodeName : String) : SaveOutcome :=
  let trimmed := draftName.trim
  if trimmed == "" || trimmed == nodeName then
    { request := none, editing := false, draft := nodeName }
  else
    { request := some trimmed, editing := false, draft := draftName }

/-- The user's choice in the "Delete children too?" confirmation dialog. -/
inductive ConfirmChoice where
  | ok
  | cancel
deriving DecidableEq

/-- Result of one run of `onDeleteSection` (types.ts lines 260-305):
whether the confirmation dialog was shown, and the delete request issued
(section id and strategy string), if any. -/
structure DeleteOutcome where
  prompted : Bool
  request : Option (String × String)

/-- `onDeleteSection` (types.ts lines 260-305): a node with children
prompts, and deletes with strategy `cascade` only on confirmation; a node
without children is deleted immediately with strategy `lift_children`. -/
def onDeleteSection (node : SectionNode) (choice : ConfirmChoice) : DeleteOutcome :=
  if node.children.isEmpty then
    { prompted := false, request := some (node.id, "lift_children") }
  else
    match choice with
    | ConfirmChoice.ok => { prompted := true, request := some (node.id, "cascade") }
    | ConfirmChoice.cancel => { prompted := true, request := none }


/-- A parsed HTTP response as the api.ts request helpers see it: the
`res.ok` flag and the JSON body, split into its optional `detail` error
field and the payload the function returns on success. -/
structure ApiResponse (A : Type) where
  ok : Bool
  detail : Option String
  payload : A

/-- JS `data.detail || fallback`: an absent detail, and also a present
but empty (falsy) one, falls back to the fixed message. -/
def jsOr (detail : Option String) (fallback : String) : String :=
  match detail with
  | some d => if d == "" then fallback else d
  | none => fallback

/-- Success body of the import endpoint (api.ts, `ImportResponse`). -/
structure ImportResponse where
  ok : Bool
  inserted : Nat
  roots : Nat
  leaves : Nat
  source : String

/-- `fetchSections` (api.ts lines 13-18), as a function of the response. -/
def fetchSections (res : ApiResponse (List SectionNode)) :
    Except String (List SectionNode) :=
  if res.ok then Except.ok res.payload
  else Except.error (jsOr res.detail "Failed to load sections")

/-- `importSectionsRequest` (api.ts lines 20-31). -/
def importSectionsRequest (res : ApiResponse ImportResponse) :
    Except String ImportResponse :=
  if res.ok then Except.ok res.payload
  else Except.error (jsOr res.detail "Import failed")

/-- `moveSectionRequest` (api.ts lines 33-49). -/
def moveSectionRequest (res : ApiResponse Unit) : Except String Unit :=
  if res.ok then Except.ok res.payload
  else Except.error (jsOr res.detail "Move failed")

/-- `renameSectionRequest` (api.ts lines 51-59). -/
def renameSectionRequest (res : ApiResponse Unit) : Except String Unit :=
  if res.ok then Except.ok res.payload
  else Except.error (jsOr res.detail "Rename failed")

/-- `createSectionRequest` (api.ts lines 61-80); the payload is the
returned `id`. -/
def createSectionRequest (res : ApiResponse String) : Except String String :=
  if res.ok then Except.ok res.payload
  else Except.error (jsOr res.detail "Create failed")

/-- `deleteSectionRequest` (api.ts lines 82-91). -/
def deleteSectionRequest (res : ApiResponse Unit) : Except String Unit :=
  if res.ok then Except.ok res.payload
  else Except.error (jsOr res.detail "Delete failed")

/-- Sample leaf node used by the concrete witness instances below. -/
def leafNode (i : String) (pid : Option String) (k : Int) : SectionNode :=
  { id := i, parent_id := pid, section_key := i, name := i, is_leaf := true,
    order := k, children := [] }

/-- Sample import payload used by the concrete witness instances below. -/
def sampleImport : ImportResponse :=
  { ok := true, inserted := 0, roots := 0, leaves := 0, source := "file" }

/-! ### Lemmas about `findIndex` and list surgery -/

theorem findIndex_lt_length (p : SectionNode → Bool) :
    ∀ (l : List SectionNode) (i : Nat), findIndex p l = some i → i < l.length := by
  intro l
  induction l with
  | nil => intro i h; simp [findIndex] at h
  | cons a rest ih =>
    intro i h
    by_cases hp : p a
    · simp [findIndex, hp] at h
      subst h
      simp
    · simp [findIndex, hp] at h
      obtain ⟨i', hi', rfl⟩ := h
      have := ih i' hi'
      simp
      omega

theorem find?_of_findIndex (p : SectionNode → Bool) :
    ∀ (l : List SectionNode) (i : Nat), findIndex p l = some i →
      l.find? p = some ((l[i]?).getD default) := by
  intro l
  induction l with
  | nil => intro i h; simp [findIndex] at h
  | cons a rest ih =>
    intro i h
    by_cases hp : p a
    · simp [findIndex, hp] at h
      subst h
      simp [List.find?_cons_of_pos _ hp]
    · simp [findIndex, hp] at h
      obtain ⟨i', hi', rfl⟩ := h
      rw [List.find?_cons_of_neg _ hp]
      simpa using ih i' hi'

theorem removeFirstById_eq_eraseIdx (s : String) :
    ∀ (l : List SectionNode) (i : Nat),
      findIndex (fun n => n.id == s) l = some i →
      removeFirstById s l = l.eraseIdx i := by
  intro l
  induction l with
  | nil => intro i h; simp [findIndex] at h
  | cons a rest ih =>
    intro i h
    by_cases hp : a.id == s
    · simp [findIndex, hp] at h
      subst h
      simp [removeFirstById, hp]
    · simp [findIndex, hp] at h
      obtain ⟨i', hi', rfl⟩ := h
      simp [removeFirstById, hp, List.eraseIdx_cons_succ, ih i' hi']

theorem insertBesideById_eq_spliceInsert (t : String) (x : SectionNode) :
    ∀ (l : List SectionNode) (j : Nat),
      findIndex (fun n => n.id == t) l = some j →
      insertBesideById t DropPosition.before x l = spliceInsert x j l ∧
      insertBesideById t DropPosition.after x l = spliceInsert x (j + 1) l := by
  intro l
  induction l with
  | nil => intro j h; simp [findIndex] at h
  | cons a rest ih =>
    intro j h
    by_cases hp : a.id == t
    · simp [findIndex, hp] at h
      subst h
      simp [insertBesideById, hp, spliceInsert]
    · simp [findIndex, hp] at h
      obtain ⟨j', hj', rfl⟩ := h
      have := ih j' hj'
      simp [insertBesideById, hp, spliceInsert, this.1, this.2]

theorem insertAtIndex_succ (i j : Nat) (pos : DropPosition) :
    insertAtIndex (i + 1) (j + 1) pos = insertAtIndex i j pos + 1 := by
  cases pos <;> simp [insertAtIndex] <;> split_ifs <;> omega

/-- The splice performed by `walk`'s in-place branch computes exactly the
spec-side "remove, then reinsert immediately before/after the target"
edit, whichever side of the target the moved node starts on. -/
theorem walk_both_eq (s t : String) (pos : DropPosition) :
    ∀ (l : List SectionNode) (i j : Nat),
      findIndex (fun n => n.id == s) l = some i →
      findIndex (fun n => n.id == t) l = some j →
      s ≠ t →
      spliceInsert ((l[i]?).getD default) (insertAtIndex i j pos) (l.eraseIdx i)
        = specReorderGroup l s t pos := by
  intro l
  induction l with
  | nil => intro i j hi hj _; simp [findIndex] at hi
  | cons a rest ih =>
    intro i j hi hj hst
    by_cases hs : a.id == s
    · -- the moved node is the head, so the target is further right
      have hs' : a.id = s := by simpa using hs
      have ht : (a.id == t) = false := by
        simp [hs']
        exact hst
      simp [findIndex, hs] at hi
      subst hi
      simp [findIndex, ht] at hj
      obtain ⟨j', hj', rfl⟩ := hj
      have hins := insertBesideById_eq_spliceInsert t a rest j' hj'
      cases pos with
      | before =>
        simp [specReorderGroup, List.find?_cons_of_pos _ hs, removeFirstById, hs,
          insertAtIndex, hins.1]
      | after =>
        simp [specReorderGroup, List.find?_cons_of_pos _ hs, removeFirstById, hs,
          insertAtIndex, hins.2]
    · by_cases ht : a.id == t
      · -- the target is the head, so the moved node is further right
        simp [findIndex, ht] at hj
        subst hj
        simp [findIndex, hs] at hi
        obtain ⟨i', hi', rfl⟩ := hi
        have hfind := find?_of_findIndex (fun n => n.id == s) rest i' hi'
        have herase := removeFirstById_eq_eraseIdx s rest i' hi'
        cases pos with
        | before =>
          simp [specReorderGroup, List.find?_cons_of_neg _ hs, hfind, removeFirstById,
            hs, insertBesideById, ht, insertAtIndex, herase, spliceInsert]
        | after =>
          simp [specReorderGroup, List.find?_cons_of_neg _ hs, hfind, removeFirstById,
            hs, insertBesideById, ht, insertAtIndex, herase, spliceInsert]
      · -- neither id is the head: step into the tail
        simp [findIndex, hs] at hi
        obtain ⟨i', hi', rfl⟩ := hi
        simp [findIndex, ht] at hj
        obtain ⟨j', hj', rfl⟩ := hj
        have hfind := find?_of_findIndex (fun n => n.id == s) rest i' hi'
        have hrec := ih i' j' hi' hj' hst
        simp [insertAtIndex_succ, List.eraseIdx_cons_succ, spliceInsert,
          specReorderGroup, List.find?_cons_of_neg _ hs, hfind, removeFirstById, hs,
          insertBesideById, ht] at hrec ⊢
        exact hrec

/-! ### Permutation, length and renumbering lemmas -/

theorem spliceInsert_perm (x : SectionNode) :
    ∀ (k : Nat) (l : List SectionNode), (spliceInsert x k l).Perm (x :: l) := by
  intro k
  induction k with
  | zero => intro l; simp [spliceInsert]
  | succ k ih =>
    intro l
    cases l with
    | nil => simp [spliceInsert]
    | cons a rest =>
      have h1 := (ih rest).cons a
      have h2 := List.Perm.swap x a rest
      simpa [spliceInsert] using h1.trans h2

theorem spliceInsert_length (x : SectionNode) :
    ∀ (k : Nat) (l : List SectionNode),
      (spliceInsert x k l).length = l.length + 1 := by
  intro k
  induction k with
  | zero => intro l; simp [spliceInsert]
  | succ k ih =>
    intro l
    cases l with
    | nil => simp [spliceInsert]
    | cons a rest => simp [spliceInsert, ih rest]

theorem eraseIdx_cons_perm (p : SectionNode → Bool) :
    ∀ (l : List SectionNode) (i : Nat), findIndex p l = some i →
      l.Perm (((l[i]?).getD default) :: l.eraseIdx i) := by
  intro l
  induction l with
  | nil => intro i h; simp [findIndex] at h
  | cons a rest ih =>
    intro i h
    by_cases hp : p a
    · simp [findIndex, hp] at h
      subst h
      simp
    · simp [findIndex, hp] at h
      obtain ⟨i', hi', rfl⟩ := h
      have h1 := (ih i' hi').cons a
      have h2 := List.Perm.swap ((rest[i']?).getD default) a (rest.eraseIdx i')
      simpa [List.eraseIdx_cons_succ] using h1.trans h2

theorem normalizeFrom_map_eraseOrder :
    ∀ (k : Nat) (l : List SectionNode),
      (normalizeFrom k l).map eraseOrder = l.map eraseOrder := by
  intro k l
  induction l generalizing k with
  | nil => simp [normalizeFrom]
  | cons a rest ih => simp [normalizeFrom, eraseOrder, ih]

theorem normalizeFrom_map_order :
    ∀ (k : Nat) (l : List SectionNode),
      (normalizeFrom k l).map (fun n => n.order)
        = (List.range' (k + 1) l.length).map (fun m => (m : Int)) := by
  intro k l
  induction l generalizing k with
  | nil => simp [normalizeFrom]
  | cons a rest ih =>
    simp [normalizeFrom, List.range'_succ, ih (k + 1)]

/-- `normalizeLocalOrders` assigns order values `1..N` in list position
order. -/
theorem normalizeLocalOrders_map_order (l : List SectionNode) :
    (normalizeLocalOrders l).map (fun n => n.order)
      = (List.range' 1 l.length).map (fun m => (m : Int)) := by
  simpa using normalizeFrom_map_order 0 l

theorem normalizeFrom_length (k : Nat) (l : List SectionNode) :
    (normalizeFrom k l).length = l.length := by
  induction l generalizing k with
  | nil => simp [normalizeFrom]
  | cons a rest ih => simp [normalizeFrom, ih]

theorem eraseIdx_length_of_findIndex (p : SectionNode → Bool)
    (l : List SectionNode) (i : Nat) (h : findIndex p l = some i) :
    (l.eraseIdx i).length = l.length - 1 := by
  have hlt := findIndex_lt_length p l i h
  rw [List.length_eraseIdx]
  simp [hlt]

/-! ### Unfolding lemmas for the reorder walk -/

theorem walkGroup_of_not_both (s t : String) (p : DropPosition) (l : List SectionNode)
    (h : groupHasBoth s t l = false) :
    walkGroup s t p l = walkEach s t p l := by
  rw [walkGroup]
  split
  · rename_i i j hi hj
    simp [groupHasBoth, hi, hj] at h
  · rfl

theorem walkGroup_of_both (s t : String) (p : DropPosition) (l : List SectionNode)
    (i j : Nat) (hi : findIndex (fun n => n.id == s) l = some i)
    (hj : findIndex (fun n => n.id == t) l = some j) :
    walkGroup s t p l =
      (normalizeLocalOrders
        (spliceInsert ((l[i]?).getD default) (insertAtIndex i j p) (l.eraseIdx i)),
       true) := by
  rw [walkGroup]
  split
  · rename_i i' j' hi' hj'
    rw [hi] at hi'
    rw [hj] at hj'
    cases hi'
    cases hj'
    rfl
  · rename_i hno
    exact (hno i j hi hj).elim

theorem walkEach_nil (s t : String) (p : DropPosition) :
    walkEach s t p [] = ([], false) := by
  rw [walkEach]

theorem walkEach_cons (s t : String) (p : DropPosition) (n : SectionNode)
    (rest : List SectionNode) :
    walkEach s t p (n :: rest) =
      (let r := walkEach s t p rest
       if n.children.isEmpty then (n :: r.1, r.2)
       else
         let rc := walkGroup s t p n.children
         if rc.2 then ({ n with children := rc.1 } :: r.1, true)
         else (n :: r.1, r.2)) := by
  rw [walkEach]

/-- When the walk reports no change it returned the sibling list as is. -/
theorem walkEach_unchanged (s t : String) (p : DropPosition) :
    ∀ (l : List SectionNode), (walkEach s t p l).2 = false →
      (walkEach s t p l).1 = l := by
  intro l
  induction l with
  | nil => intro h; simp [walkEach_nil]
  | cons n rest ih =>
    intro h
    rw [walkEach_cons] at h ⊢
    by_cases hc : n.children.isEmpty
    · simp only [hc, if_true] at h ⊢
      simp [ih h]
    · simp only [hc, if_false] at h ⊢
      by_cases hrc : (walkGroup s t p n.children).2
      · simp [hrc] at h
      · simp only [hrc, if_false] at h ⊢
        simp at h
        simp [ih h]

/-- When the walk reports no change it returned the group as is. -/
theorem walkGroup_unchanged (s t : String) (p : DropPosition)
    (l : List SectionNode) (h : (walkGroup s t p l).2 = false) :
    (walkGroup s t p l).1 = l := by
  by_cases hb : groupHasBoth s t l
  · obtain ⟨i, hi⟩ := Option.isSome_iff_exists.mp (by
      simp [groupHasBoth] at hb
      exact hb.1)
    obtain ⟨j, hj⟩ := Option.isSome_iff_exists.mp (by
      simp [groupHasBoth] at hb
      exact hb.2)
    rw [walkGroup_of_both s t p l i j hi hj] at h
    simp at h
  · rw [walkGroup_of_not_both s t p l (by simpa using hb)] at h ⊢
    exact walkEach_unchanged s t p l h

theorem groupHasBoth_nil (s t : String) : groupHasBoth s t [] = false := by
  simp [groupHasBoth, findIndex]

theorem walkGroup_nil (s t : String) (p : DropPosition) :
    walkGroup s t p [] = ([], false) := by
  rw [walkGroup_of_not_both s t p [] (groupHasBoth_nil s t)]
  exact walkEach_nil s t p

/-- The descent branch rewrites every node's children by the recursive
walk and keeps everything else about the node. -/
theorem walkEach_fst_map (s t : String) (p : DropPosition) :
    ∀ (l : List SectionNode),
      (walkEach s t p l).1
        = l.map (fun n => { n with children := (walkGroup s t p n.children).1 }) := by
  intro l
  induction l with
  | nil => simp [walkEach_nil]
  | cons n rest ih =>
    rw [walkEach_cons]
    by_cases hc : n.children.isEmpty
    · have hnil : n.children = [] := by simpa using hc
      have heta : { n with children := ([] : List SectionNode) } = n := by
        rw [← hnil]
        cases n
        rfl
      simp [hc, ih, hnil, walkGroup_nil, heta]
    · by_cases hrc : (walkGroup s t p n.children).2
      · simp [hc, hrc, ih]
      · have hu := walkGroup_unchanged s t p n.children (by simpa using hrc)
        have heta : { n with children := n.children } = n := by
          cases n
          rfl
        simp [hc, hrc, ih, hu, heta]

theorem walk_nogroup_each (s t : String) (p : DropPosition) :
    ∀ (N : Nat) (l : List SectionNode), sizeOf l ≤ N →
      someGroupHasBothEach s t l = false → walkEach s t p l = (l, false) := by
  intro N
  induction N with
  | zero =>
    intro l h
    exfalso
    cases l <;> simp at h
  | succ N ih =>
    intro l hl hno
    cases l with
    | nil => exact walkEach_nil s t p
    | cons n rest =>
      have hsz : 1 + sizeOf n + sizeOf rest ≤ N + 1 := by
        simpa [List.cons.sizeOf_spec] using hl
      have hchlt := sizeOf_children_lt n
      rw [someGroupHasBothEach] at hno
      have hno' : someGroupHasBoth s t n.children = false ∧
          someGroupHasBothEach s t rest = false := by simpa using hno
      rw [someGroupHasBoth] at hno'
      have hno1 : groupHasBoth s t n.children = false ∧
          someGroupHasBothEach s t n.children = false := by
        have := hno'.1
        simpa using this
      have hch : walkGroup s t p n.children = (n.children, false) := by
        rw [walkGroup_of_not_both s t p n.children hno1.1]
        exact ih n.children (by omega) hno1.2
      have hrest : walkEach s t p rest = (rest, false) := ih rest (by omega) hno'.2
      rw [walkEach_cons]
      by_cases hc : n.children.isEmpty <;> simp [hc, hrest, hch]

/-- If no sibling list anywhere in the forest contains both ids, the walk
changes nothing. -/
theorem walkGroup_nogroup (s t : String) (p : DropPosition) (l : List SectionNode)
    (h : someGroupHasBoth s t l = false) : walkGroup s t p l = (l, false) := by
  rw [someGroupHasBoth] at h
  have h' : groupHasBoth s t l = false ∧ someGroupHasBothEach s t l = false := by
    simpa using h
  rw [walkGroup_of_not_both s t p l h'.1]
  exact walk_nogroup_each s t p (sizeOf l) l le_rfl h'.2

theorem insertBesideById_perm (t : String) (pos : DropPosition) (x : SectionNode) :
    ∀ (l : List SectionNode), (insertBesideById t pos x l).Perm (x :: l) := by
  intro l
  induction l with
  | nil => simp [insertBesideById]
  | cons a rest ih =>
    by_cases hp : a.id == t
    · cases pos with
      | before => simp [insertBesideById, hp]
      | after =>
        simp only [insertBesideById, hp, if_true]
        exact List.Perm.swap x a rest
    · simp only [insertBesideById, hp, if_false]
      exact ((ih).cons a).trans (List.Perm.swap x a rest)

/-- The spec-side group edit permutes the sibling list. -/
theorem specReorderGroup_perm (l : List SectionNode) (s t : String)
    (pos : DropPosition) (i : Nat)
    (hi : findIndex (fun n => n.id == s) l = some i) :
    (specReorderGroup l s t pos).Perm l := by
  have hfind := find?_of_findIndex (fun n => n.id == s) l i hi
  have herase := removeFirstById_eq_eraseIdx s l i hi
  rw [specReorderGroup, hfind]
  show (insertBesideById t pos ((l[i]?).getD default) (removeFirstById s l)).Perm l
  rw [herase]
  exact (insertBesideById_perm t pos _ _).trans
    (eraseIdx_cons_perm (fun n => n.id == s) l i hi).symm

/-! ### Claim theorems -/

/-- C1: on any sibling list containing both ids, with distinct ids,
`reorderTreeLocally` edits the list in place — it removes the moved node
from its current slot and reinserts it immediately before/after the
target (the spec-side `specReorderGroup`, which is insensitive to whether
the moved node started before or after the target), then renumbers; and
the result carries exactly the same nodes (apart from the renumbered
`order` field) as the input, none duplicated and none dropped. -/
theorem reorderTreeLocally_group_inplace :
    ∀ (l : List SectionNode) (s t : String) (pos : DropPosition),
      s ≠ t →
      (findIndex (fun n => n.id == s) l).isSome = true →
      (findIndex (fun n => n.id == t) l).isSome = true →
      reorderTreeLocally l s t pos
          = normalizeLocalOrders (specReorderGroup l s t pos) ∧
        ((reorderTreeLocally l s t pos).map eraseOrder).Perm
          (l.map eraseOrder) := by
  intro l s t pos hst hs ht
  obtain ⟨i, hi⟩ := Option.isSome_iff_exists.mp hs
  obtain ⟨j, hj⟩ := Option.isSome_iff_exists.mp ht
  have heq : reorderTreeLocally l s t pos
      = normalizeLocalOrders (specReorderGroup l s t pos) := by
    rw [reorderTreeLocally, walkGroup_of_both s t pos l i j hi hj]
    simp only []
    rw [walk_both_eq s t pos l i j hi hj hst]
  refine ⟨heq, ?_⟩
  rw [heq, normalizeLocalOrders, normalizeFrom_map_eraseOrder]
  exact (specReorderGroup_perm l s t pos i hi).map eraseOrder

/-- C1 witness: the sibling list A, B, C with A moved after C. -/
theorem reorderTreeLocally_group_inplace_witness :
    reorderTreeLocally
        [leafNode "A" (some "P") 1, leafNode "B" (some "P") 2,
         leafNode "C" (some "P") 3] "A" "C" DropPosition.after
        = normalizeLocalOrders
            (specReorderGroup
              [leafNode "A" (some "P") 1, leafNode "B" (some "P") 2,
               leafNode "C" (some "P") 3] "A" "C" DropPosition.after) ∧
      ((reorderTreeLocally
          [leafNode "A" (some "P") 1, leafNode "B" (some "P") 2,
           leafNode "C" (some "P") 3] "A" "C" DropPosition.after).map
            eraseOrder).Perm
        (([leafNode "A" (some "P") 1, leafNode "B" (some "P") 2,
           leafNode "C" (some "P") 3]).map eraseOrder) :=
  reorderTreeLocally_group_inplace
    [leafNode "A" (some "P") 1, leafNode "B" (some "P") 2,
     leafNode "C" (some "P") 3] "A" "C" DropPosition.after
    (by decide) (by rfl) (by rfl)

/-- C2: `normalizeLocalOrders` keeps the same nodes in the same sequence,
changing only each node's `order` field to its 1-based position; hence
after a successful `reorderTreeLocally` on a group containing both ids
the group's `order` values are exactly 1..N, contiguous and ascending. -/
theorem normalizeLocalOrders_contiguous :
    ∀ (l : List SectionNode),
      (normalizeLocalOrders l).map eraseOrder = l.map eraseOrder ∧
      (normalizeLocalOrders l).map (fun n => n.order)
          = (List.range' 1 l.length).map (fun m => (m : Int)) ∧
      ∀ (s t : String) (pos : DropPosition),
        groupHasBoth s t l = true →
        (reorderTreeLocally l s t pos).map (fun n => n.order)
          = (List.range' 1 l.length).map (fun m => (m : Int)) := by
  intro l
  refine ⟨normalizeFrom_map_eraseOrder 0 l, normalizeLocalOrders_map_order l, ?_⟩
  intro s t pos hboth
  have hboth' : (findIndex (fun n => n.id == s) l).isSome = true ∧
      (findIndex (fun n => n.id == t) l).isSome = true := by
    simpa [groupHasBoth] using hboth
  obtain ⟨i, hi⟩ := Option.isSome_iff_exists.mp hboth'.1
  obtain ⟨j, hj⟩ := Option.isSome_iff_exists.mp hboth'.2
  rw [reorderTreeLocally, walkGroup_of_both s t pos l i j hi hj]
  simp only []
  rw [normalizeLocalOrders_map_order]
  rw [spliceInsert_length, eraseIdx_length_of_findIndex _ l i hi]
  have hlt := findIndex_lt_length _ l i hi
  have hlen : l.length - 1 + 1 = l.length := by omega
  rw [hlen]

/-- C2 witness: normalizing B, C, A (orders 7, 9, 4) and reordering
A, B, C by moving A after C both yield orders 1, 2, 3. -/
theorem normalizeLocalOrders_contiguous_witness :
    (reorderTreeLocally
        [leafNode "A" (some "P") 1, leafNode "B" (some "P") 2,
         leafNode "C" (some "P") 3] "A" "C" DropPosition.after).map
        (fun n => n.order)
      = (List.range' 1 3).map (fun m => (m : Int)) :=
  (normalizeLocalOrders_contiguous
    [leafNode "A" (some "P") 1, leafNode "B" (some "P") 2,
     leafNode "C" (some "P") 3]).2.2 "A" "C" DropPosition.after (by rfl)

/-- C5: on the sibling list A(order 1), B(order 2), C(order 3) under one
parent, moving A after C yields B(order 1), C(order 2), A(order 3). -/
theorem move_A_after_C_example :
    reorderTreeLocally
        [leafNode "A" (some "P") 1, leafNode "B" (some "P") 2,
         leafNode "C" (some "P") 3] "A" "C" DropPosition.after
      = [leafNode "B" (some "P") 1, leafNode "C" (some "P") 2,
         leafNode "A" (some "P") 3] := by
  rw [reorderTreeLocally, walkGroup]
  rfl

/-- C3: when both nodes exist and their `parent_id`s differ,
`moveSectionByAnchor` issues no request and leaves the tree unchanged,
only setting the cross-parent error message; and `reorderTreeLocally`
with ids that share no sibling list anywhere returns the tree unchanged. -/
theorem cross_parent_move_rejected :
    (∀ (tree : List SectionNode) (s t : String) (mv : Except String Unit)
        (f : Except String (List SectionNode)) (d tg : Option String × Int),
      getNodeMeta tree s = some d → getNodeMeta tree t = some tg →
      d.1 ≠ tg.1 →
      moveSectionByAnchor tree s t mv f
        = { tree := tree, error := some "Cross-parent moves are not allowed.",
            request := none }) ∧
    (∀ (tree : List SectionNode) (s t : String) (pos : DropPosition),
      someGroupHasBoth s t tree = false →
      reorderTreeLocally tree s t pos = tree) := by
  constructor
  · intro tree s t mv f d tg hd htg hne
    have hst : (s == t) = false := by
      apply beq_eq_false_iff_ne.mpr
      intro hcontra
      subst hcontra
      rw [hd] at htg
      exact hne (by cases htg; rfl)
    rw [moveSectionByAnchor]
    simp [hst, hd, htg, hne]
  · intro tree s t pos h
    rw [reorderTreeLocally, walkGroup_nogroup s t pos tree h]

/-- C3 witness: a tree with roots P1 and P2 whose children are A and B;
moving A relative to B is rejected with the tree unchanged and no
request, and the local reorder of a pair sharing no sibling list is the
identity. -/
theorem cross_parent_move_rejected_witness :
    moveSectionByAnchor
        [ { id := "P1", parent_id := none, section_key := "P1", name := "P1",
            is_leaf := false, order := 1,
            children := [leafNode "A" (some "P1") 1] },
          { id := "P2", parent_id := none, section_key := "P2", name := "P2",
            is_leaf := false, order := 2,
            children := [leafNode "B" (some "P2") 1] } ]
        "A" "B" (Except.ok ()) (Except.ok [])
      = { tree :=
            [ { id := "P1", parent_id := none, section_key := "P1",
                name := "P1", is_leaf := false, order := 1,
                children := [leafNode "A" (some "P1") 1] },
              { id := "P2", parent_id := none, section_key := "P2",
                name := "P2", is_leaf := false, order := 2,
                children := [leafNode "B" (some "P2") 1] } ],
          error := some "Cross-parent moves are not allowed.",
          request := none } ∧
    reorderTreeLocally
        [ { id := "P1", parent_id := none, section_key := "P1", name := "P1",
            is_leaf := false, order := 1,
            children := [leafNode "A" (some "P1") 1] },
          { id := "P2", parent_id := none, section_key := "P2", name := "P2",
            is_leaf := false, order := 2,
            children := [leafNode "B" (some "P2") 1] } ]
        "A" "B" DropPosition.before
      = [ { id := "P1", parent_id := none, section_key := "P1", name := "P1",
            is_leaf := false, order := 1,
            children := [leafNode "A" (some "P1") 1] },
          { id := "P2", parent_id := none, section_key := "P2", name := "P2",
            is_leaf := false, order := 2,
            children := [leafNode "B" (some "P2") 1] } ] :=
  ⟨cross_parent_move_rejected.1 _ "A" "B" (Except.ok ()) (Except.ok [])
      (some "P1", 1) (some "P2", 1)
      (by simp [getNodeMeta, nodeMetaList, leafNode])
      (by simp [getNodeMeta, nodeMetaList, leafNode])
      (by decide),
   cross_parent_move_rejected.2 _ "A" "B" DropPosition.before
      (by simp [someGroupHasBoth, someGroupHasBothEach, groupHasBoth, findIndex,
        leafNode])⟩

/-- C4: moving a section relative to itself is rejected up front: no
request is issued, no error set, and the tree is unchanged. -/
theorem self_move_noop (tree : List SectionNode) (s : String)
    (mv : Except String Unit) (f : Except String (List SectionNode)) :
    moveSectionByAnchor tree s s mv f
      = { tree := tree, error := none, request := none } := by
  rw [moveSectionByAnchor]
  simp

/-- C10: frame of `reorderTreeLocally`. When the top-level sibling list
contains both ids it is the (single) edited group: its nodes are only
repositioned and renumbered (same nodes up to the `order` field, each
keeping its id, parent, key, name, leaf flag and children subtree), and
no descent into children happens. When it does not, every node is
returned with all its own fields intact and only its children rewritten
by the same recursive walk — so the only group ever edited in place is
the first one, in traversal order, containing both ids. -/
theorem reorderTreeLocally_frame :
    ∀ (l : List SectionNode) (s t : String) (pos : DropPosition),
      (groupHasBoth s t l = true →
        ((reorderTreeLocally l s t pos).map eraseOrder).Perm
          (l.map eraseOrder)) ∧
      (groupHasBoth s t l = false →
        reorderTreeLocally l s t pos
          = l.map (fun n =>
              { n with children := reorderTreeLocally n.children s t pos })) := by
  intro l s t pos
  constructor
  · intro h
    have h' : (findIndex (fun n => n.id == s) l).isSome = true ∧
        (findIndex (fun n => n.id == t) l).isSome = true := by
      simpa [groupHasBoth] using h
    obtain ⟨i, hi⟩ := Option.isSome_iff_exists.mp h'.1
    obtain ⟨j, hj⟩ := Option.isSome_iff_exists.mp h'.2
    rw [reorderTreeLocally, walkGroup_of_both s t pos l i j hi hj]
    simp only []
    rw [normalizeLocalOrders, normalizeFrom_map_eraseOrder]
    exact ((spliceInsert_perm _ _ _).trans
      (eraseIdx_cons_perm (fun n => n.id == s) l i hi).symm).map eraseOrder
  · intro h
    rw [reorderTreeLocally, walkGroup_of_not_both s t pos l h]
    rw [walkEach_fst_map]
    rfl

/-- C10 witness: at the root list of the nested tree P, Q (ids A, B
inside P's children), the root group lacks the ids, so each root keeps
its fields and only its children are rewritten; inside P's children the
group edit permutes the order-erased nodes. -/
theorem reorderTreeLocally_frame_witness :
    ((reorderTreeLocally
        [leafNode "A" (some "P") 1, leafNode "B" (some "P") 2] "A" "B"
          DropPosition.after).map eraseOrder).Perm
        (([leafNode "A" (some "P") 1,
            leafNode "B" (some "P") 2]).map eraseOrder) ∧
    reorderTreeLocally
        [ { id := "P", parent_id := none, section_key := "P", name := "P",
            is_leaf := false, order := 1,
            children := [leafNode "A" (some "P") 1,
              leafNode "B" (some "P") 2] } ] "A" "B" DropPosition.after
      = [ { id := "P", parent_id := none, section_key := "P", name := "P",
            is_leaf := false, order := 1,
            children := reorderTreeLocally
              [leafNode "A" (some "P") 1, leafNode "B" (some "P") 2]
              "A" "B" DropPosition.after } ] :=
  ⟨(reorderTreeLocally_frame
      [leafNode "A" (some "P") 1, leafNode "B" (some "P") 2] "A" "B"
      DropPosition.after).1 (by rfl),
   by
    have h := (reorderTreeLocally_frame
      [ { id := "P", parent_id := none, section_key := "P", name := "P",
          is_leaf := false, order := 1,
          children := [leafNode "A" (some "P") 1,
            leafNode "B" (some "P") 2] } ] "A" "B" DropPosition.after).2
      (by rfl)
    simpa using h⟩

/-- C7: the move handler is atomic on the client state: it captures the
tree before the optimistic reorder, and whenever `moveSectionRequest`
throws the tree is restored exactly to its pre-move value (with the
thrown message surfaced when a request was actually issued); when the
request was issued and succeeds and the silent re-fetch succeeds, the
state is instead replaced by the server's tree. -/
theorem move_restores_tree_on_failure :
    ∀ (tree : List SectionNode) (s t : String) (mv : Except String Unit)
      (f : Except String (List SectionNode)),
      (∀ msg, mv = Except.error msg →
        (moveSectionByAnchor tree s t mv f).tree = tree ∧
        ((moveSectionByAnchor tree s t mv f).request.isSome = true →
          (moveSectionByAnchor tree s t mv f).error = some msg)) ∧
      ((moveSectionByAnchor tree s t mv f).request.isSome = true →
        ∀ newTree, mv = Except.ok () → f = Except.ok newTree →
          (moveSectionByAnchor tree s t mv f).tree = newTree) := by
  intro tree s t mv f
  by_cases hst : (s == t) = true
  · constructor
    · intro msg hmv
      rw [moveSectionByAnchor]
      simp [hst]
    · intro hreq
      rw [moveSectionByAnchor] at hreq
      simp [hst] at hreq
  · cases hd : getNodeMeta tree s with
    | none =>
      constructor
      · intro msg hmv
        rw [moveSectionByAnchor]
        simp [hst, hd]
      · intro hreq
        rw [moveSectionByAnchor] at hreq
        simp [hst, hd] at hreq
    | some d =>
      cases htg : getNodeMeta tree t with
      | none =>
        constructor
        · intro msg hmv
          rw [moveSectionByAnchor]
          simp [hst, hd, htg]
        · intro hreq
          rw [moveSectionByAnchor] at hreq
          simp [hst, hd, htg] at hreq
      | some tg =>
        by_cases hpe : d.1 = tg.1
        · constructor
          · intro msg hmv
            subst hmv
            rw [moveSectionByAnchor]
            simp [hst, hd, htg, hpe]
          · intro hreq newTree hmv hf
            subst hmv
            subst hf
            rw [moveSectionByAnchor]
            simp [hst, hd, htg, hpe]
        · constructor
          · intro msg hmv
            rw [moveSectionByAnchor]
            simp [hst, hd, htg, hpe]
          · intro hreq
            rw [moveSectionByAnchor] at hreq
            simp [hst, hd, htg, hpe] at hreq

/-- C7 witness: on the flat tree A, B (same parent), a move whose request
throws "boom" leaves the tree exactly as it was and surfaces the message;
the request was issued. -/
theorem move_restores_tree_on_failure_witness :
    (moveSectionByAnchor [leafNode "A" none 1, leafNode "B" none 2] "A" "B"
        (Except.error "boom") (Except.ok [])).tree
        = [leafNode "A" none 1, leafNode "B" none 2] ∧
      (moveSectionByAnchor [leafNode "A" none 1, leafNode "B" none 2] "A" "B"
        (Except.error "boom") (Except.ok [])).error = some "boom" := by
  have h := (move_restores_tree_on_failure
    [leafNode "A" none 1, leafNode "B" none 2] "A" "B"
    (Except.error "boom") (Except.ok [])).1 "boom" rfl
  refine ⟨h.1, h.2 ?_⟩
  rw [moveSectionByAnchor]
  simp [getNodeMeta, nodeMetaList, leafNode]

/-- C6: `handleSave` issues a rename request exactly when the trimmed
draft is non-empty and differs from the current name; the name sent is
always the trimmed draft; in the no-op case the editor closes with the
draft reset to the current name and no request; the editor always
closes. -/
theorem handleSave_guard :
    ∀ (draft current : String),
      ((handleSave draft current).request = some draft.trim ↔
        (draft.trim ≠ "" ∧ draft.trim ≠ current)) ∧
      (∀ n, (handleSave draft current).request = some n → n = draft.trim) ∧
      ((draft.trim = "" ∨ draft.trim = current) →
        handleSave draft current
          = { request := none, editing := false, draft := current }) ∧
      (handleSave draft current).editing = false := by
  intro draft current
  by_cases h1 : draft.trim = ""
  · simp [handleSave, h1]
  · by_cases h2 : draft.trim = current
    · simp [handleSave, h1, h2]
    · simp [handleSave, h1, h2]

/-- C6 witness: the guard instantiated at a concrete draft and current
name; the editor always closes after a save attempt. -/
theorem handleSave_guard_witness :
    ((handleSave "  New " "Old").request = some ("  New ".trim) ↔
      ("  New ".trim ≠ "" ∧ "  New ".trim ≠ "Old")) ∧
      (handleSave "x" "x").editing = false :=
  ⟨(handleSave_guard "  New " "Old").1, (handleSave_guard "x" "x").2.2.2⟩

/-- C9: deleting a node with children prompts and, only on confirmation,
issues a cascade delete; cancelling issues nothing; deleting a childless
node immediately issues a lift_children delete without prompting; hence
a lift_children delete is only ever issued for a childless node. -/
theorem deleteStrategy_guard :
    ∀ (node : SectionNode) (choice : ConfirmChoice),
      (node.children ≠ [] →
        (onDeleteSection node choice).prompted = true ∧
        (choice = ConfirmChoice.ok →
          (onDeleteSection node choice).request = some (node.id, "cascade")) ∧
        (choice = ConfirmChoice.cancel →
          (onDeleteSection node choice).request = none)) ∧
      (node.children = [] →
        (onDeleteSection node choice).prompted = false ∧
        (onDeleteSection node choice).request
          = some (node.id, "lift_children")) ∧
      ((onDeleteSection node choice).request
          = some (node.id, "lift_children") →
        node.children = []) := by
  intro node choice
  cases hc : node.children with
  | nil => cases choice <;> simp [onDeleteSection, hc]
  | cons x xs => cases choice <;> simp [onDeleteSection, hc]

/-- C9 witness: a childless leaf is deleted immediately with
lift_children; a parent with a child prompts and cancellation issues no
request. -/
theorem deleteStrategy_guard_witness :
    (onDeleteSection (leafNode "A" none 1) ConfirmChoice.cancel).request
        = some ("A", "lift_children") ∧
      (onDeleteSection
        { id := "P", parent_id := none, section_key := "P", name := "P",
          is_leaf := false, order := 1, children := [leafNode "A" (some "P") 1] }
        ConfirmChoice.cancel).request = none :=
  ⟨((deleteStrategy_guard (leafNode "A" none 1) ConfirmChoice.cancel).2.1
      (by rfl)).2,
   ((deleteStrategy_guard
      { id := "P", parent_id := none, section_key := "P", name := "P",
        is_leaf := false, order := 1, children := [leafNode "A" (some "P") 1] }
      ConfirmChoice.cancel).1 (by simp)).2.2 rfl⟩

/-- C8 counterexample: a non-2xx response whose body carries a present
but empty `detail` field does not produce that detail as the thrown
message — the `data.detail || fallback` expression treats the empty
string as falsy and substitutes the fixed fallback instead. -/
theorem api_detail_empty_counterexample :
    fetchSections { ok := false, detail := some "", payload := [] }
        = Except.error "Failed to load sections" ∧
      fetchSections { ok := false, detail := some "", payload := [] }
        ≠ Except.error "" := by
  refine ⟨rfl, ?_⟩
  simp [fetchSections, jsOr]

/-- C8 (amended): every api.ts request helper returns normally on an ok
response; on a non-2xx response it throws, with the body's `detail` as
the message when that field is present and non-empty, and with the
function's fixed fallback message when `detail` is absent or empty. -/
theorem api_error_surface :
    ∀ (rT : ApiResponse (List SectionNode)) (rI : ApiResponse ImportResponse)
      (rM rR rD : ApiResponse Unit) (rC : ApiResponse String),
      ((rT.ok = true → fetchSections rT = Except.ok rT.payload) ∧
        (rT.ok = false → ∀ d, rT.detail = some d → d ≠ "" →
          fetchSections rT = Except.error d) ∧
        (rT.ok = false → (rT.detail = none ∨ rT.detail = some "") →
          fetchSections rT = Except.error "Failed to load sections")) ∧
      ((rI.ok = true → importSectionsRequest rI = Except.ok rI.payload) ∧
        (rI.ok = false → ∀ d, rI.detail = some d → d ≠ "" →
          importSectionsRequest rI = Except.error d) ∧
        (rI.ok = false → (rI.detail = none ∨ rI.detail = some "") →
          importSectionsRequest rI = Except.error "Import failed")) ∧
      ((rM.ok = true → moveSectionRequest rM = Except.ok rM.payload) ∧
        (rM.ok = false → ∀ d, rM.detail = some d → d ≠ "" →
          moveSectionRequest rM = Except.error d) ∧
        (rM.ok = false → (rM.detail = none ∨ rM.detail = some "") →
          moveSectionRequest rM = Except.error "Move failed")) ∧
      ((rR.ok = true → renameSectionRequest rR = Except.ok rR.payload) ∧
        (rR.ok = false → ∀ d, rR.detail = some d → d ≠ "" →
          renameSectionRequest rR = Except.error d) ∧
        (rR.ok = false → (rR.detail = none ∨ rR.detail = some "") →
          renameSectionRequest rR = Except.error "Rename failed")) ∧
      ((rC.ok = true → createSectionRequest rC = Except.ok rC.payload) ∧
        (rC.ok = false → ∀ d, rC.detail = some d → d ≠ "" →
          createSectionRequest rC = Except.error d) ∧
        (rC.ok = false → (rC.detail = none ∨ rC.detail = some "") →
          createSectionRequest rC = Except.error "Create failed")) ∧
      ((rD.ok = true → deleteSectionRequest rD = Except.ok rD.payload) ∧
        (rD.ok = false → ∀ d, rD.detail = some d → d ≠ "" →
          deleteSectionRequest rD = Except.error d) ∧
        (rD.ok = false → (rD.detail = none ∨ rD.detail = some "") →
          deleteSectionRequest rD = Except.error "Delete failed")) := by
  intro rT rI rM rR rD rC
  refine ⟨⟨?_, ?_, ?_⟩, ⟨?_, ?_, ?_⟩, ⟨?_, ?_, ?_⟩,
    ⟨?_, ?_, ?_⟩, ⟨?_, ?_, ?_⟩, ⟨?_, ?_, ?_⟩⟩ <;>
  first
  | (intro h
     simp [fetchSections, importSectionsRequest, moveSectionRequest,
       renameSectionRequest, createSectionRequest, deleteSectionRequest, h]
     done)
  | (intro h d hd hne
     simp [fetchSections, importSectionsRequest, moveSectionRequest,
       renameSectionRequest, createSectionRequest, deleteSectionRequest,
       jsOr, h, hd, hne]
     done)
  | (intro h hcase
     rcases hcase with hc | hc <;>
       simp [fetchSections, importSectionsRequest, moveSectionRequest,
         renameSectionRequest, createSectionRequest, deleteSectionRequest,
         jsOr, h, hc])

/-- C8 witness: a failed move with a non-empty detail throws that detail;
a successful fetch returns its payload. -/
theorem api_error_surface_witness :
    moveSectionRequest { ok := false, detail := some "kaput", payload := () }
        = Except.error "kaput" ∧
      fetchSections { ok := true, detail := none, payload := [] }
        = Except.ok [] :=
  ⟨(api_error_surface { ok := true, detail := none, payload := [] }
      { ok := true, detail := none, payload := sampleImport }
      { ok := false, detail := some "kaput", payload := () }
      { ok := true, detail := none, payload := () }
      { ok := true, detail := none, payload := () }
      { ok := true, detail := none, payload := "id" }).2.2.1.2.1
      rfl "kaput" rfl (by decide),
   (api_error_surface { ok := true, detail := none, payload := [] }
      { ok := true, detail := none, payload := sampleImport }
      { ok := false, detail := some "kaput", payload := () }
      { ok := true, detail := none, payload := () }
      { ok := true, detail := none, payload := () }
      { ok := true, detail := none, payload := "id" }).1.1 rfl⟩
